import Mathlib

/-!
Shallow embedding of `src/services/payloadEncryption.ts` (class `PayloadEncryption`),
the client side of the HouseSigma hybrid-encryption protocol.

Modelling conventions:
* Node `Buffer`s are `List Nat` of byte values.
* JavaScript strings are Lean `String`s (sequences of Unicode scalar values);
  `padEnd`/`slice` act on the character sequence, as they act on JS code units.
* The AES-128 block primitive, RSA-OAEP, gzip and `JSON.parse`/`Buffer.toString`
  live in external libraries (`node:crypto`, `node:zlib`, the JS runtime); they
  enter the model as function parameters (`E`, `rsaEncrypt`, `gunzipFn`,
  `bytesToStringFn`, `parseJsonFn`), while everything the repository itself does
  (CTR keystream layout and XOR, base64, key normalization, JSON serialization,
  timestamping, metadata handling) is defined concretely.
* Thrown exceptions become `Except Err`; the `Err` constructors use the design
  document's taxonomy and correspond to the distinct throw sites of the code.
* `crypto.randomBytes(16)` reads the first 16 bytes of an oracle `rand`;
  `EncOutcome.randomBytesDrawn` records that the call consumed them.
-/

namespace Sigmatic

/-- UTF-8 encoding of one Unicode scalar value, as `Buffer.from(s, "utf8")` emits it. -/
def utf8Bytes (c : Char) : List Nat :=
  if c.toNat < 0x80 then [c.toNat]
  else if c.toNat < 0x800 then [0xC0 + c.toNat / 64, 0x80 + c.toNat % 64]
  else if c.toNat < 0x10000 then
    [0xE0 + c.toNat / 4096, 0x80 + c.toNat / 64 % 64, 0x80 + c.toNat % 64]
  else
    [0xF0 + c.toNat / 262144, 0x80 + c.toNat / 4096 % 64, 0x80 + c.toNat / 64 % 64,
      0x80 + c.toNat % 64]

/-- `Buffer.from(s, "utf8")`. -/
def utf8Encode (s : String) : List Nat :=
  (s.data.map utf8Bytes).flatten

/-- JSON values as the modelled payloads: JS objects keep field insertion order. -/
inductive Json where
  | null : Json
  | bool : Bool → Json
  | num : Int → Json
  | str : String → Json
  | arr : List Json → Json
  | obj : List (String × Json) → Json
  deriving Repr

/-- One character of the string escaping performed by `JSON.stringify`. -/
def escapeChar (c : Char) : String :=
  if c = '"' then "\\\""
  else if c = '\\' then "\\\\"
  else if c = '\x08' then "\\b"
  else if c = '\x09' then "\\t"
  else if c = '\x0a' then "\\n"
  else if c = '\x0c' then "\\f"
  else if c = '\x0d' then "\\r"
  else if c.toNat < 0x20 then
    "\\u00" ++ String.mk [Nat.digitChar (c.toNat / 16), Nat.digitChar (c.toNat % 16)]
  else String.singleton c

/-- The quoted, escaped form of a string, as `JSON.stringify` renders it. -/
def quoteString (s : String) : String :=
  "\"" ++ String.join (s.data.map escapeChar) ++ "\""

mutual

/-- `JSON.stringify` for the modelled JSON values (no replacer, no spacing). -/
def stringify : Json → String
  | .null => "null"
  | .bool true => "true"
  | .bool false => "false"
  | .num i => toString i
  | .str s => quoteString s
  | .arr xs => "[" ++ stringifyItems xs ++ "]"
  | .obj fs => "\x7b" ++ stringifyFields fs ++ "\x7d"

/-- Comma-separated serialization of array elements. -/
def stringifyItems : List Json → String
  | [] => ""
  | [x] => stringify x
  | x :: y :: xs => stringify x ++ "," ++ stringifyItems (y :: xs)

/-- Comma-separated serialization of object fields, in insertion order. -/
def stringifyFields : List (String × Json) → String
  | [] => ""
  | [(k, v)] => quoteString k ++ ":" ++ stringify v
  | (k, v) :: f :: fs => quoteString k ++ ":" ++ stringify v ++ "," ++ stringifyFields (f :: fs)

end

/-- Does the object field list carry key `k`? -/
def hasField (fs : List (String × Json)) (k : String) : Bool :=
  fs.any fun p => p.1 == k

/-- First value stored under key `k`. -/
def getField (fs : List (String × Json)) (k : String) : Option Json :=
  match fs with
  | [] => none
  | (k2, v) :: rest => if k2 = k then some v else getField rest k

/-- The JS object spread-with-override `\x7b...fs, k: v\x7d`: an existing key keeps
its position but takes the new value; a fresh key is appended at the end. -/
def setField (fs : List (String × Json)) (k : String) (v : Json) : List (String × Json) :=
  if hasField fs k then fs.map (fun p => if p.1 = k then (k, v) else p)
  else fs ++ [(k, v)]

/-- `String.prototype.padEnd(targetLength, pad)` for a single padding character. -/
def padEnd (s : String) (targetLength : Nat) (pad : Char) : String :=
  String.mk (s.data ++ List.replicate (targetLength - s.data.length) pad)

/-- `String.prototype.slice(0, n)`. -/
def sliceTo (s : String) (n : Nat) : String :=
  String.mk (s.data.take n)

/-- `normalizeAESKey` from the source:
`Buffer.from(keyString.padEnd(16, "*").slice(0, 16), "utf8")`. -/
def normalizeAESKey (keyString : String) : List Nat :=
  utf8Encode (sliceTo (padEnd keyString 16 '*') 16)

/-- The key-normalization routine as the specification words it: encode the secret
as UTF-8 bytes, right-pad with the padding byte (42, the UTF-8 code of the protocol
constant) until at least 16 bytes, then truncate to exactly the first 16 bytes. -/
def normalizeAESKeySpec (secret : String) : List Nat :=
  ((utf8Encode secret) ++ List.replicate (16 - (utf8Encode secret).length) 42).take 16

/-- `generateTimestamp`: `Math.floor(Date.now() / 1000).toString()`, with the clock
reading `Date.now()` passed in as whole milliseconds. -/
def generateTimestamp (nowMs : Nat) : String :=
  toString (nowMs / 1000)

/-- Big-endian value of a byte string. -/
def beVal (bs : List Nat) : Nat :=
  bs.foldl (fun a b => a * 256 + b) 0

/-- Big-endian byte string of width `w` for a value. -/
def beBytes : Nat → Nat → List Nat
  | 0, _ => []
  | w + 1, v => beBytes w (v / 256) ++ [v % 256]

/-- The `i`-th counter block of AES-128-CTR: the 16-byte initial counter read
big-endian, incremented by `i` modulo 2^128, re-encoded big-endian. -/
def ctrBlock (ctr : List Nat) (i : Nat) : List Nat :=
  beBytes 16 ((beVal ctr + i) % 2 ^ 128)

/-- The first `n` keystream bytes of CTR mode over the block primitive `E`:
byte `j` is byte `j % 16` of the encrypted counter block `j / 16`. -/
def ctrKeystream (E : List Nat → List Nat → List Nat) (key ctr : List Nat) (n : Nat) :
    List Nat :=
  (List.range n).map fun j => (E key (ctrBlock ctr (j / 16))).getD (j % 16) 0

/-- The CTR-mode transform (`createCipheriv`/`createDecipheriv` with
`"aes-128-ctr"` are the same XOR-with-keystream operation). -/
def ctrCrypt (E : List Nat → List Nat → List Nat) (key ctr data : List Nat) : List Nat :=
  List.zipWith Nat.xor data (ctrKeystream E key ctr data.length)

/-- The base64 alphabet. -/
def b64Alphabet : List Char :=
  "ABCDEFGHIJKLMNOPQRSTUVWXYZabcdefghijklmnopqrstuvwxyz0123456789+/".data

/-- Character for one sextet value. -/
def b64Char (v : Nat) : Char :=
  b64Alphabet.getD v 'A'

/-- `Buffer.toString("base64")`: emit 3 input bytes as 4 characters, with
trailing groups padded by `=`. -/
def b64EncodeChars : List Nat → List Char
  | [] => []
  | [a] => [b64Char (a / 4), b64Char (a % 4 * 16), '=', '=']
  | [a, b] => [b64Char (a / 4), b64Char (a % 4 * 16 + b / 16), b64Char (b % 16 * 4), '=']
  | a :: b :: c :: rest =>
      b64Char (a / 4) :: b64Char (a % 4 * 16 + b / 16) :: b64Char (b % 16 * 4 + c / 64) ::
        b64Char (c % 64) :: b64EncodeChars rest

/-- `Buffer.toString("base64")` as a string. -/
def base64Encode (bs : List Nat) : String :=
  String.mk (b64EncodeChars bs)

/-- Position of a character in a character list, counting from `i`. -/
def b64Lookup (c : Char) : List Char → Nat → Option Nat
  | [], _ => none
  | d :: ds, i => if d = c then some i else b64Lookup c ds (i + 1)

/-- Sextet value of one base64 character (`none` for `=` and foreign characters,
which Node's lenient decoder skips). -/
def b64DecodeChar (c : Char) : Option Nat :=
  b64Lookup c b64Alphabet 0

/-- Reassemble bytes from a sextet stream; a trailing group of 2 or 3 sextets
yields 1 or 2 bytes, as Node's base64 decoder does. -/
def sextetsToBytes : List Nat → List Nat
  | s1 :: s2 :: s3 :: s4 :: rest =>
      (s1 * 4 + s2 / 16) :: (s2 % 16 * 16 + s3 / 4) :: (s3 % 4 * 64 + s4) :: sextetsToBytes rest
  | [s1, s2] => [s1 * 4 + s2 / 16]
  | [s1, s2, s3] => [s1 * 4 + s2 / 16, s2 % 16 * 16 + s3 / 4]
  | _ => []

/-- `Buffer.from(s, "base64")` (lenient: non-alphabet characters are skipped). -/
def base64Decode (s : String) : List Nat :=
  sextetsToBytes (s.data.filterMap b64DecodeChar)

/-- Error taxonomy of the design document; each constructor stands for one of the
distinct throw sites of `payloadEncryption.ts`. -/
inductive Err where
  | configurationError : Err
  | sequenceError : Err
  | cryptoError : Err
  | corruptResponse : Err
  deriving Repr, DecidableEq

/-- `EncryptionMetadata`: the single-slot encryption context stored between a
request and its response. -/
structure EncryptionMetadata where
  counter : List Nat
  aesKey : String
  timestamp : String
  deriving Repr, DecidableEq

/-- `EncryptedPayload`: the wire envelope returned by `encryptRequest`. -/
structure EncryptedPayload where
  ctr : String
  et_payload : String
  deriving Repr, DecidableEq

/-- `AESEncryptionResult`: counter plus ciphertext from `encryptPayloadAES`. -/
structure AESEncryptionResult where
  counter : List Nat
  encrypted : List Nat
  deriving Repr, DecidableEq

/-- Decidable equality for `Except`, so that concrete call outcomes evaluate. -/
instance {ε α : Type} [DecidableEq ε] [DecidableEq α] : DecidableEq (Except ε α) := fun x y =>
  match x, y with
  | .ok a, .ok b =>
    match decEq a b with
    | isTrue h => isTrue (h ▸ rfl)
    | isFalse h => isFalse fun he => h (Except.ok.inj he)
  | .error a, .error b =>
    match decEq a b with
    | isTrue h => isTrue (h ▸ rfl)
    | isFalse h => isFalse fun he => h (Except.error.inj he)
  | .ok _, .error _ => isFalse fun he => Except.noConfusion he
  | .error _, .ok _ => isFalse fun he => Except.noConfusion he

/-- Everything observable about one `encryptRequest` call: its return value or
thrown error, the `lastEncryptionMetadata` field afterwards, and how many bytes
of randomness `crypto.randomBytes` handed out during the call. -/
structure EncOutcome where
  result : Except Err EncryptedPayload
  lastEncryptionMetadata : Option EncryptionMetadata
  randomBytesDrawn : Nat
  deriving Repr, DecidableEq

/-- `encryptPayloadAES` on string data (the branch `encryptRequest` exercises):
UTF-8 encode, normalize the key, draw the 16 random counter bytes, then run
AES-CTR. `createCipheriv("aes-128-ctr", key, iv)` validates that the key and the
iv are exactly 16 bytes and throws otherwise — after the randomness was drawn. -/
def encryptPayloadAES (E : List Nat → List Nat → List Nat) (rand : List Nat)
    (data : String) (aesKeyString : String) : Except Err AESEncryptionResult :=
  if (normalizeAESKey aesKeyString).length = 16 ∧ (rand.take 16).length = 16 then
    .ok ⟨rand.take 16,
      ctrCrypt E (normalizeAESKey aesKeyString) (rand.take 16) (utf8Encode data)⟩
  else .error .cryptoError

/-- `encryptCounterRSA`: reject a missing public key, then RSA-OAEP-wrap the
counter; `crypto.publicEncrypt` (parameter `rsaEncrypt`) yields `none` on a
malformed key, which the code surfaces as a thrown configuration error. -/
def encryptCounterRSA (rsaEncrypt : String → List Nat → Option (List Nat))
    (rsaPublicKeyPem : String) (counter : List Nat) : Except Err (List Nat) :=
  if rsaPublicKeyPem = "" then .error .configurationError
  else
    match rsaEncrypt rsaPublicKeyPem counter with
    | some out => .ok out
    | none => .error .configurationError

/-- Step 2 of `encryptRequest`: `\x7b...requestData, hs_request_timestamp: timestamp\x7d`. -/
def timestampedPayload (requestData : List (String × Json)) (nowMs : Nat) :
    List (String × Json) :=
  setField requestData "hs_request_timestamp" (Json.str (generateTimestamp nowMs))

/-- `encryptRequest`: timestamp, merge, serialize, AES-CTR encrypt, RSA-wrap the
counter, store the metadata, return the base64 envelope. The `try/catch` of the
source only logs and rethrows, so a failing step leaves `lastEncryptionMetadata`
at its prior value `state0`; the 16 counter bytes are drawn on every path,
because `crypto.randomBytes` runs before both failing primitives. -/
def encryptRequest (E : List Nat → List Nat → List Nat)
    (rsaEncrypt : String → List Nat → Option (List Nat)) (rsaPublicKeyPem : String)
    (state0 : Option EncryptionMetadata) (nowMs : Nat) (rand : List Nat)
    (requestData : List (String × Json)) (aesKeyString : String) : EncOutcome :=
  match encryptPayloadAES E rand
      (stringify (Json.obj (timestampedPayload requestData nowMs))) aesKeyString with
  | .error e => ⟨.error e, state0, 16⟩
  | .ok aesResult =>
    match encryptCounterRSA rsaEncrypt rsaPublicKeyPem aesResult.counter with
    | .error e => ⟨.error e, state0, 16⟩
    | .ok encryptedCounter =>
        ⟨.ok ⟨base64Encode encryptedCounter, base64Encode aesResult.encrypted⟩,
          some ⟨aesResult.counter, aesKeyString, generateTimestamp nowMs⟩, 16⟩

/-- `decryptResponseAES`: base64-decode, normalize the key, run the same CTR
transform with the stored counter. `createDecipheriv` performs the same 16-byte
key/iv validation as `createCipheriv`. -/
def decryptResponseAES (E : List Nat → List Nat → List Nat) (encryptedData : String)
    (aesKeyString : String) (counter : List Nat) : Except Err (List Nat) :=
  if (normalizeAESKey aesKeyString).length = 16 ∧ counter.length = 16 then
    .ok (ctrCrypt E (normalizeAESKey aesKeyString) counter (base64Decode encryptedData))
  else .error .cryptoError

/-- `decompressData`: gzip-inflate (`zlib.gunzip`, parameter `gunzipFn`); a
failure is logged and rethrown, reaching the caller as the corrupt-response
case of the taxonomy. -/
def decompressData (gunzipFn : List Nat → Option (List Nat)) (compressedData : List Nat) :
    Except Err (List Nat) :=
  match gunzipFn compressedData with
  | some out => .ok out
  | none => .error .corruptResponse

/-- `decryptResponse`: guard on the stored context, AES-CTR decrypt, gunzip,
decode to text (`bytesToStringFn` models `Buffer.toString("utf8")`), JSON-parse
(`parseJsonFn` models `JSON.parse`, `none` = thrown `SyntaxError`). The pair's
second component is the `lastEncryptionMetadata` field after the call, which no
branch of the source reassigns. -/
def decryptResponse (E : List Nat → List Nat → List Nat)
    (gunzipFn : List Nat → Option (List Nat)) (bytesToStringFn : List Nat → String)
    (parseJsonFn : String → Option Json) (state0 : Option EncryptionMetadata)
    (encryptedResponseData : String) : Except Err Json × Option EncryptionMetadata :=
  match state0 with
  | none => (.error .sequenceError, state0)
  | some md =>
    match decryptResponseAES E encryptedResponseData md.aesKey md.counter with
    | .error e => (.error e, state0)
    | .ok decryptedData =>
      match decompressData gunzipFn decryptedData with
      | .error e => (.error e, state0)
      | .ok decompressedData =>
        match parseJsonFn (bytesToStringFn decompressedData) with
        | some responseJson => (.ok responseJson, state0)
        | none => (.error .corruptResponse, state0)

/-- `clearEncryptionMetadata`: resets the single-slot context to empty. -/
def clearEncryptionMetadata (_ : Option EncryptionMetadata) : Option EncryptionMetadata :=
  none

/-- `getLastEncryptionMetadata`: reads the slot without changing it. -/
def getLastEncryptionMetadata (state : Option EncryptionMetadata) :
    Option EncryptionMetadata :=
  state

/-! Concrete instantiations of the external primitives, used to evaluate the
model on sample inputs. -/

/-- A stand-in block primitive: every counter block encrypts to 16 zero bytes
(so the CTR keystream is all zeros). -/
def zeroBlockCipher : List Nat → List Nat → List Nat :=
  fun _ _ => List.replicate 16 0

/-- A stand-in RSA primitive that rejects every key as malformed. -/
def rsaNone : String → List Nat → Option (List Nat) :=
  fun _ _ => none

/-- A stand-in RSA primitive that wraps the counter as itself. -/
def rsaEcho : String → List Nat → Option (List Nat) :=
  fun _ counter => some counter

/-- A stand-in gzip inflate that rejects its input as non-gzip data. -/
def gunzipReject : List Nat → Option (List Nat) :=
  fun _ => none

/-- A stand-in byte-to-text decoder. -/
def bytesToStringEmpty : List Nat → String :=
  fun _ => ""

/-- A stand-in JSON parser that rejects its input. -/
def parseJsonReject : String → Option Json :=
  fun _ => none

/-- The sample payload of the design document's end-to-end property. -/
def samplePayload : List (String × Json) :=
  [("id_listing", Json.arr [Json.str "X1", Json.str "X2"])]

/-- Sample randomness oracle: 16 distinct bytes. -/
def sampleRand : List Nat :=
  List.range 16

/-- Sample clock reading (milliseconds), November 2023. -/
def sampleNowMs : Nat :=
  1700000000123

/-- Sample stored context for decryption runs. -/
def sampleMetadata : EncryptionMetadata :=
  ⟨List.replicate 16 0, "abcdef", "1700000000"⟩

/-! Basic facts about the byte-level helpers. -/

theorem zeroBlockCipher_lt : ∀ key ctr b, b ∈ zeroBlockCipher key ctr → b < 256 := by
  intro _ _ b hb
  have := List.eq_of_mem_replicate hb
  omega

theorem char_toNat_lt (c : Char) : c.toNat < 1114112 := by
  have h := c.valid
  rcases h with h | ⟨_, h⟩ <;> exact Nat.lt_of_lt_of_le h (by norm_num)

theorem utf8Bytes_lt {c : Char} {b : Nat} (hb : b ∈ utf8Bytes c) : b < 256 := by
  have hc := char_toNat_lt c
  unfold utf8Bytes at hb
  split at hb <;> [skip; split at hb] <;> [skip; skip; split at hb] <;>
    simp only [List.mem_cons, List.not_mem_nil, or_false] at hb <;> omega

theorem utf8Encode_lt {s : String} {b : Nat} (hb : b ∈ utf8Encode s) : b < 256 := by
  unfold utf8Encode at hb
  rw [List.mem_flatten] at hb
  obtain ⟨bs, hbs, hmem⟩ := hb
  rw [List.mem_map] at hbs
  obtain ⟨c, _, rfl⟩ := hbs
  exact utf8Bytes_lt hmem

theorem ctrKeystream_length (E : List Nat → List Nat → List Nat) (key ctr : List Nat)
    (n : Nat) : (ctrKeystream E key ctr n).length = n := by
  simp [ctrKeystream]

theorem ctrKeystream_lt {E : List Nat → List Nat → List Nat}
    (hE : ∀ key ctr b, b ∈ E key ctr → b < 256) (key ctr : List Nat) (n : Nat) :
    ∀ b ∈ ctrKeystream E key ctr n, b < 256 := by
  intro b hb
  unfold ctrKeystream at hb
  rw [List.mem_map] at hb
  obtain ⟨j, _, rfl⟩ := hb
  set l := E key (ctrBlock ctr (j / 16)) with hl
  by_cases h : j % 16 < l.length
  · rw [List.getD_eq_getElem l 0 h]
    exact hE key _ _ (List.getElem_mem h)
  · rw [List.getD_eq_getElem?_getD, List.getElem?_eq_none (by omega)]
    norm_num

theorem ctrCrypt_length (E : List Nat → List Nat → List Nat) (key ctr data : List Nat) :
    (ctrCrypt E key ctr data).length = data.length := by
  simp [ctrCrypt, ctrKeystream_length]

theorem zipWith_xor_cancel : ∀ (xs ys : List Nat), ys.length = xs.length →
    List.zipWith Nat.xor (List.zipWith Nat.xor xs ys) ys = xs
  | [], ys, _ => by simp
  | x :: xs, [], h => by simp at h
  | x :: xs, y :: ys, h => by
    simp only [List.zipWith_cons_cons, List.cons.injEq]
    exact ⟨Nat.xor_cancel_right y x, zipWith_xor_cancel xs ys (by simpa using h)⟩

/-- Decrypting with the same key and counter undoes the CTR transform. -/
theorem ctrCrypt_ctrCrypt (E : List Nat → List Nat → List Nat) (key ctr data : List Nat) :
    ctrCrypt E key ctr (ctrCrypt E key ctr data) = data := by
  unfold ctrCrypt
  rw [List.length_zipWith, ctrKeystream_length, Nat.min_self]
  exact zipWith_xor_cancel data _ (ctrKeystream_length ..)

theorem ctrCrypt_lt {E : List Nat → List Nat → List Nat}
    (hE : ∀ key ctr b, b ∈ E key ctr → b < 256) {key ctr data : List Nat}
    (hdata : ∀ b ∈ data, b < 256) : ∀ b ∈ ctrCrypt E key ctr data, b < 256 := by
  intro b hb
  unfold ctrCrypt at hb
  obtain ⟨i, hi, rfl⟩ := List.mem_iff_getElem.1 hb
  rw [List.getElem_zipWith]
  have h1 : i < data.length := by
    rw [List.length_zipWith, ctrKeystream_length] at hi; omega
  have h2 : i < (ctrKeystream E key ctr data.length).length := by
    rw [ctrKeystream_length]; omega
  have hx : data[i] < 256 := hdata _ (List.getElem_mem h1)
  have hy : (ctrKeystream E key ctr data.length)[i] < 256 :=
    ctrKeystream_lt hE key ctr data.length _ (List.getElem_mem h2)
  have : (256 : Nat) = 2 ^ 8 := by norm_num
  rw [this] at hx hy ⊢
  exact Nat.xor_lt_two_pow hx hy

/-! The base64 encoder and the lenient decoder are mutually inverse on byte data. -/

theorem b64DecodeChar_b64Char : ∀ v : Nat, v < 64 → b64DecodeChar (b64Char v) = some v := by
  decide

theorem b64DecodeChar_eq : b64DecodeChar '=' = none := by decide

theorem base64Decode_mk (l : List Char) :
    base64Decode (String.mk l) = sextetsToBytes (l.filterMap b64DecodeChar) := rfl

theorem base64_roundtrip : ∀ bs : List Nat, (∀ b ∈ bs, b < 256) →
    base64Decode (base64Encode bs) = bs
  | [], _ => rfl
  | [a], h => by
    have ha : a < 256 := h a (by simp)
    show sextetsToBytes
      (List.filterMap b64DecodeChar [b64Char (a / 4), b64Char (a % 4 * 16), '=', '=']) = _
    simp only [List.filterMap_cons, b64DecodeChar_b64Char (a / 4) (by omega),
      b64DecodeChar_b64Char (a % 4 * 16) (by omega), b64DecodeChar_eq, List.filterMap_nil]
    show [a / 4 * 4 + a % 4 * 16 / 16] = [a]
    congr 1
    omega
  | [a, b], h => by
    have ha : a < 256 := h a (by simp)
    have hb : b < 256 := h b (by simp)
    show sextetsToBytes (List.filterMap b64DecodeChar
      [b64Char (a / 4), b64Char (a % 4 * 16 + b / 16), b64Char (b % 16 * 4), '=']) = _
    simp only [List.filterMap_cons, b64DecodeChar_b64Char (a / 4) (by omega),
      b64DecodeChar_b64Char (a % 4 * 16 + b / 16) (by omega),
      b64DecodeChar_b64Char (b % 16 * 4) (by omega), b64DecodeChar_eq, List.filterMap_nil]
    show [a / 4 * 4 + (a % 4 * 16 + b / 16) / 16,
      (a % 4 * 16 + b / 16) % 16 * 16 + b % 16 * 4 / 4] = [a, b]
    congr 1
    · omega
    congr 1
    omega
  | a :: b :: c :: rest, h => by
    have ha : a < 256 := h a (by simp)
    have hb : b < 256 := h b (by simp)
    have hc : c < 256 := h c (by simp)
    have ih := base64_roundtrip rest (fun x hx => h x (by simp [hx]))
    show sextetsToBytes (List.filterMap b64DecodeChar
      (b64Char (a / 4) :: b64Char (a % 4 * 16 + b / 16) :: b64Char (b % 16 * 4 + c / 64) ::
        b64Char (c % 64) :: b64EncodeChars rest)) = _
    simp only [List.filterMap_cons, b64DecodeChar_b64Char (a / 4) (by omega),
      b64DecodeChar_b64Char (a % 4 * 16 + b / 16) (by omega),
      b64DecodeChar_b64Char (b % 16 * 4 + c / 64) (by omega),
      b64DecodeChar_b64Char (c % 64) (by omega)]
    rw [show ∀ s1 s2 s3 s4 t, sextetsToBytes (s1 :: s2 :: s3 :: s4 :: t) =
      (s1 * 4 + s2 / 16) :: (s2 % 16 * 16 + s3 / 4) :: (s3 % 4 * 64 + s4) :: sextetsToBytes t
      from fun _ _ _ _ _ => rfl]
    rw [show sextetsToBytes (List.filterMap b64DecodeChar (b64EncodeChars rest)) =
      base64Decode (base64Encode rest) from rfl, ih]
    congr 1
    · omega
    congr 1
    · omega
    congr 1
    omega

theorem base64Decode_base64Encode_length (bs : List Nat) (h : ∀ b ∈ bs, b < 256) :
    (base64Decode (base64Encode bs)).length = bs.length := by
  rw [base64_roundtrip bs h]

/-! Decimal rendering of naturals: digit count and digit-hood of `Nat.repr`. -/

theorem digitChar_isDigit : ∀ m : Nat, m < 10 → (Nat.digitChar m).isDigit = true := by
  decide

theorem toDigitsCore_length : ∀ (fuel n : Nat) (ds : List Char), n < fuel →
    (Nat.toDigitsCore 10 fuel n ds).length = Nat.log 10 n + 1 + ds.length := by
  intro fuel
  induction fuel with
  | zero => intro n ds h; omega
  | succ fuel ih =>
    intro n ds h
    simp only [Nat.toDigitsCore]
    by_cases h0 : n / 10 = 0
    · rw [if_pos h0]
      have hn : n < 10 := by omega
      have hlog : Nat.log 10 n = 0 := Nat.log_eq_zero_iff.2 (Or.inl hn)
      simp only [List.length_cons, hlog]
      omega
    · rw [if_neg h0]
      have h10 : 10 ≤ n := by omega
      have hlt : n / 10 < fuel := by omega
      rw [ih (n / 10) (Nat.digitChar (n % 10) :: ds) hlt]
      have hdiv : Nat.log 10 (n / 10) = Nat.log 10 n - 1 := Nat.log_div_base 10 n
      have hpos : 0 < Nat.log 10 n := Nat.log_pos (by norm_num) h10
      simp only [List.length_cons]
      omega

theorem toDigitsCore_isDigit : ∀ (fuel n : Nat) (ds : List Char),
    (∀ c ∈ ds, c.isDigit = true) →
    ∀ c ∈ Nat.toDigitsCore 10 fuel n ds, c.isDigit = true := by
  intro fuel
  induction fuel with
  | zero => intro n ds hds; simpa [Nat.toDigitsCore] using hds
  | succ fuel ih =>
    intro n ds hds
    simp only [Nat.toDigitsCore]
    have hd : (Nat.digitChar (n % 10)).isDigit = true :=
      digitChar_isDigit (n % 10) (by omega)
    by_cases h0 : n / 10 = 0
    · rw [if_pos h0]
      intro c hc
      rcases List.mem_cons.1 hc with rfl | hc
      · exact hd
      · exact hds c hc
    · rw [if_neg h0]
      refine ih (n / 10) _ ?_
      intro c hc
      rcases List.mem_cons.1 hc with rfl | hc
      · exact hd
      · exact hds c hc

theorem repr_length_of_range {n k : Nat} (h1 : 10 ^ k ≤ n) (h2 : n < 10 ^ (k + 1)) :
    (Nat.repr n).length = k + 1 := by
  show (Nat.toDigits 10 n).asString.length = k + 1
  have : (Nat.toDigits 10 n).asString.length = (Nat.toDigits 10 n).length := rfl
  rw [this]
  unfold Nat.toDigits
  rw [toDigitsCore_length (n + 1) n [] (by omega)]
  rw [Nat.log_eq_of_pow_le_of_lt_pow h1 h2]
  simp

theorem repr_isDigit (n : Nat) : ∀ c ∈ (Nat.repr n).data, c.isDigit = true := by
  show ∀ c ∈ (Nat.toDigits 10 n).asString.data, c.isDigit = true
  have : (Nat.toDigits 10 n).asString.data = Nat.toDigits 10 n := rfl
  rw [this]
  exact toDigitsCore_isDigit (n + 1) n [] (by simp)

/-! Facts about object-field merging (`setField`). -/

theorem getField_map_self (k : String) (v : Json) :
    ∀ fs : List (String × Json), hasField fs k = true →
      getField (fs.map (fun p => if p.1 = k then (k, v) else p)) k = some v := by
  intro fs
  induction fs with
  | nil => intro h; simp [hasField] at h
  | cons p rest ih =>
    obtain ⟨a, w⟩ := p
    intro h
    simp only [List.map_cons]
    by_cases hak : a = k
    · rw [if_pos hak]
      simp [getField]
    · rw [if_neg hak]
      have hrest : hasField rest k = true := by
        simp only [hasField, List.any_cons, Bool.or_eq_true] at h
        rcases h with h | h
        · exact absurd (by simpa using h) hak
        · exact h
      simp only [getField, if_neg hak]
      exact ih hrest

theorem getField_map_ne (k k' : String) (v : Json) (hne : k' ≠ k) :
    ∀ fs : List (String × Json),
      getField (fs.map (fun p => if p.1 = k then (k, v) else p)) k' = getField fs k' := by
  intro fs
  induction fs with
  | nil => simp [getField]
  | cons p rest ih =>
    obtain ⟨a, w⟩ := p
    simp only [List.map_cons]
    by_cases hak : a = k
    · rw [if_pos hak]
      have hkk : ¬(k = k') := fun he => hne he.symm
      simp only [getField, if_neg hkk, if_neg (hak ▸ hkk : ¬(a = k'))]
      exact ih
    · rw [if_neg hak]
      simp only [getField]
      by_cases hak' : a = k'
      · rw [if_pos hak', if_pos hak']
      · rw [if_neg hak', if_neg hak']
        exact ih

theorem getField_append_ne (k k' : String) (v : Json) (hne : k' ≠ k) :
    ∀ fs : List (String × Json),
      getField (fs ++ [(k, v)]) k' = getField fs k' := by
  intro fs
  induction fs with
  | nil =>
    have hkk : ¬(k = k') := fun he => hne he.symm
    simp [getField, hkk]
  | cons p rest ih =>
    obtain ⟨a, w⟩ := p
    simp only [List.cons_append, getField]
    by_cases hak' : a = k'
    · rw [if_pos hak', if_pos hak']
    · rw [if_neg hak', if_neg hak']
      exact ih

theorem getField_append_self (k : String) (v : Json) :
    ∀ fs : List (String × Json), hasField fs k = false →
      getField (fs ++ [(k, v)]) k = some v := by
  intro fs
  induction fs with
  | nil => simp [getField]
  | cons p rest ih =>
    obtain ⟨a, w⟩ := p
    intro h
    simp only [hasField, List.any_cons, Bool.or_eq_false_iff] at h
    have hak : ¬(a = k) := by simpa using h.1
    simpa [getField, hak] using ih (by simpa [hasField] using h.2)

theorem getField_setField_self (fs : List (String × Json)) (k : String) (v : Json) :
    getField (setField fs k v) k = some v := by
  unfold setField
  by_cases h : hasField fs k
  · rw [if_pos h]
    exact getField_map_self k v fs h
  · rw [if_neg h]
    exact getField_append_self k v fs (by simpa using h)

theorem getField_setField_ne (fs : List (String × Json)) (k k' : String) (v : Json)
    (hne : k' ≠ k) : getField (setField fs k v) k' = getField fs k' := by
  unfold setField
  by_cases h : hasField fs k
  · rw [if_pos h]
    exact getField_map_ne k k' v hne fs
  · rw [if_neg h]
    exact getField_append_ne k k' v hne fs

theorem keys_map_set (k : String) (v : Json) :
    ∀ fs : List (String × Json),
      (fs.map (fun p => if p.1 = k then (k, v) else p)).map Prod.fst = fs.map Prod.fst := by
  intro fs
  induction fs with
  | nil => simp
  | cons p rest ih =>
    obtain ⟨a, w⟩ := p
    simp only [List.map_cons]
    by_cases hak : a = k
    · rw [if_pos hak]
      rw [show ((k, v) : String × Json).1 = a from hak.symm]
      rw [ih]
    · rw [if_neg hak]
      rw [ih]

theorem keys_setField (fs : List (String × Json)) (k : String) (v : Json)
    (h : hasField fs k = true) : (setField fs k v).map Prod.fst = fs.map Prod.fst := by
  unfold setField
  rw [if_pos h]
  exact keys_map_set k v fs

theorem hasField_of_getField {fs : List (String × Json)} {k : String} {v : Json}
    (h : getField fs k = some v) : hasField fs k = true := by
  induction fs with
  | nil => simp [getField] at h
  | cons p rest ih =>
    obtain ⟨a, w⟩ := p
    by_cases hak : a = k
    · simp [hasField, hak]
    · simp only [getField, if_neg hak] at h
      have hr := ih h
      unfold hasField at hr ⊢
      rw [List.any_cons, Bool.or_eq_true]
      exact Or.inr hr

/-! Characterization of a successful `encryptRequest` call. -/

theorem encryptRequest_ok_eq (E : List Nat → List Nat → List Nat)
    (rsaEncrypt : String → List Nat → Option (List Nat)) (pem : String)
    (state0 : Option EncryptionMetadata) (nowMs : Nat) (rand : List Nat)
    (rd : List (String × Json)) (secret : String) (w : List Nat)
    (hkey : (normalizeAESKey secret).length = 16) (hrand : 16 ≤ rand.length)
    (hpem : pem ≠ "") (hw : rsaEncrypt pem (rand.take 16) = some w) :
    encryptRequest E rsaEncrypt pem state0 nowMs rand rd secret =
      ⟨.ok ⟨base64Encode w, base64Encode (ctrCrypt E (normalizeAESKey secret) (rand.take 16)
          (utf8Encode (stringify (Json.obj (timestampedPayload rd nowMs)))))⟩,
        some ⟨rand.take 16, secret, generateTimestamp nowMs⟩, 16⟩ := by
  have htake : (rand.take 16).length = 16 := by
    rw [List.length_take]; omega
  unfold encryptRequest encryptPayloadAES encryptCounterRSA
  rw [if_pos ⟨hkey, htake⟩]
  simp only [if_neg hpem, hw]

theorem encryptRequest_ok_inv (E : List Nat → List Nat → List Nat)
    (rsaEncrypt : String → List Nat → Option (List Nat)) (pem : String)
    (state0 : Option EncryptionMetadata) (nowMs : Nat) (rand : List Nat)
    (rd : List (String × Json)) (secret : String) (p : EncryptedPayload)
    (h : (encryptRequest E rsaEncrypt pem state0 nowMs rand rd secret).result = .ok p) :
    (normalizeAESKey secret).length = 16 ∧ 16 ≤ rand.length ∧ pem ≠ "" ∧
      ∃ w, rsaEncrypt pem (rand.take 16) = some w := by
  unfold encryptRequest at h
  split at h
  case h_1 e heq => simp at h
  case h_2 aesResult heq =>
    unfold encryptPayloadAES at heq
    split at heq
    case isFalse => exact absurd heq (by simp)
    case isTrue hc =>
      have htake : 16 ≤ rand.length := by
        have := hc.2
        rw [List.length_take] at this
        omega
      refine ⟨hc.1, htake, ?_⟩
      split at h
      case h_1 e heq2 =>
        simp at h
      case h_2 ec heq2 =>
        unfold encryptCounterRSA at heq2
        split at heq2
        case isTrue => exact absurd heq2 (by simp)
        case isFalse hpem =>
          split at heq2
          case h_1 out hout =>
            refine ⟨hpem, out, ?_⟩
            have : aesResult.counter = rand.take 16 := by
              have := heq
              injection this with h2
              rw [← h2]
            rw [← this]
            exact hout
          case h_2 hout => exact absurd heq2 (by simp)

/-! Claim theorems. -/

/-- C1: the claim says `normalizeAESKey` equals the byte-level reference
normalization (UTF-8 encode, pad the bytes to at least 16, truncate to 16, so
always exactly 16 bytes). The code pads and slices JS code units before UTF-8
encoding, so on the one-character secret "é" it produces 17 bytes where the
reference produces 16 — contradicting the function's own doc comment
("Normalize AES key to exactly 16 bytes"). -/
theorem normalizeAESKey_nonascii_bug :
    normalizeAESKey "é" ≠ normalizeAESKeySpec "é" ∧
      (normalizeAESKey "é").length = 17 ∧ (normalizeAESKeySpec "é").length = 16 :=
  ⟨by decide, by decide, by decide⟩

/-- C2 counterexample: with the asymmetric key missing (empty PEM), the call does
fail with a `ConfigurationError` and leaves the context alone, but the 16 random
counter bytes have already been drawn (`crypto.randomBytes` runs inside
`encryptPayloadAES`, before `encryptCounterRSA` checks the key), refuting
"before generating any randomness ... no random counter has been drawn". -/
theorem encryptRequest_missing_key_still_draws_randomness :
    (encryptRequest zeroBlockCipher rsaNone "" none sampleNowMs sampleRand []
        "abcdef").result = .error .configurationError ∧
      (encryptRequest zeroBlockCipher rsaNone "" none sampleNowMs sampleRand []
        "abcdef").lastEncryptionMetadata = none ∧
      (encryptRequest zeroBlockCipher rsaNone "" none sampleNowMs sampleRand []
        "abcdef").randomBytesDrawn = 16 :=
  ⟨by decide, by decide, by decide⟩

/-- C2 (amended): if the asymmetric public key is missing or malformed (and the
symmetric key passes the cipher's 16-byte check, so the AES step does not fail
first), `encryptRequest` fails with a `ConfigurationError` and
`lastEncryptionMetadata` is exactly what it was before the call — but the
16-byte random counter has already been drawn when the failure occurs. -/
theorem encryptRequest_bad_rsa_key_no_context_change (E : List Nat → List Nat → List Nat)
    (rsaEncrypt : String → List Nat → Option (List Nat)) (pem : String)
    (state0 : Option EncryptionMetadata) (nowMs : Nat) (rand : List Nat)
    (rd : List (String × Json)) (secret : String)
    (hkey : (normalizeAESKey secret).length = 16) (hrand : 16 ≤ rand.length)
    (hpem : pem = "" ∨ rsaEncrypt pem (rand.take 16) = none) :
    (encryptRequest E rsaEncrypt pem state0 nowMs rand rd secret).result
        = .error .configurationError ∧
      (encryptRequest E rsaEncrypt pem state0 nowMs rand rd secret).lastEncryptionMetadata
        = state0 ∧
      (encryptRequest E rsaEncrypt pem state0 nowMs rand rd secret).randomBytesDrawn = 16 := by
  have htake : (rand.take 16).length = 16 := by
    rw [List.length_take]; omega
  rcases hpem with hpem | hpem
  · subst hpem
    simp [encryptRequest, encryptPayloadAES, encryptCounterRSA, hkey, htake]
  · by_cases hp : pem = ""
    · subst hp
      simp [encryptRequest, encryptPayloadAES, encryptCounterRSA, hkey, htake]
    · simp [encryptRequest, encryptPayloadAES, encryptCounterRSA, hkey, htake, hp, hpem]

/-- C2 witness: the amended statement evaluated with a malformed key (the RSA
primitive rejects it) and a prior stored context. -/
theorem encryptRequest_bad_rsa_key_no_context_change_witness :
    (encryptRequest zeroBlockCipher rsaNone "pem" (some sampleMetadata) sampleNowMs
        sampleRand [] "abcdef").result = .error .configurationError ∧
      (encryptRequest zeroBlockCipher rsaNone "pem" (some sampleMetadata) sampleNowMs
        sampleRand [] "abcdef").lastEncryptionMetadata = some sampleMetadata ∧
      (encryptRequest zeroBlockCipher rsaNone "pem" (some sampleMetadata) sampleNowMs
        sampleRand [] "abcdef").randomBytesDrawn = 16 :=
  encryptRequest_bad_rsa_key_no_context_change zeroBlockCipher rsaNone "pem"
    (some sampleMetadata) sampleNowMs sampleRand [] "abcdef" (by decide) (by decide)
    (Or.inr rfl)

/-- C5: with no active encryption context — none stored, or the metadata cleared
by `clearEncryptionMetadata` — `decryptResponse` fails with a `SequenceError`
for every input, whatever the cipher, gzip and parser primitives do (so no
decryption work can have been performed). -/
theorem decryptResponse_no_context_sequence_error (E : List Nat → List Nat → List Nat)
    (gunzipFn : List Nat → Option (List Nat)) (bytesToStringFn : List Nat → String)
    (parseJsonFn : String → Option Json) (input : String)
    (st : Option EncryptionMetadata) :
    decryptResponse E gunzipFn bytesToStringFn parseJsonFn none input
        = (.error .sequenceError, none) ∧
      decryptResponse E gunzipFn bytesToStringFn parseJsonFn
        (clearEncryptionMetadata st) input = (.error .sequenceError, none) :=
  ⟨rfl, rfl⟩

/-- C8: `decryptResponse` never modifies the active encryption context — on
every path (missing context, cipher fault, gzip failure, JSON parse failure, or
success) the stored metadata after the call is identical to its value before. -/
theorem decryptResponse_preserves_metadata (E : List Nat → List Nat → List Nat)
    (gunzipFn : List Nat → Option (List Nat)) (bytesToStringFn : List Nat → String)
    (parseJsonFn : String → Option Json) (state0 : Option EncryptionMetadata)
    (input : String) :
    (decryptResponse E gunzipFn bytesToStringFn parseJsonFn state0 input).2 = state0 := by
  unfold decryptResponse
  cases state0 with
  | none => rfl
  | some md =>
    repeat' split
    all_goals rfl

/-- C9: for any clock reading whose whole-second value lies in the current era
(between 10^9 and 10^10 seconds), the generated timestamp string has exactly 10
characters, all ASCII decimal digits. -/
theorem generateTimestamp_ten_digits (nowMs : Nat)
    (h1 : 10 ^ 9 ≤ nowMs / 1000) (h2 : nowMs / 1000 < 10 ^ 10) :
    (generateTimestamp nowMs).length = 10 ∧
      ∀ c ∈ (generateTimestamp nowMs).data, c.isDigit = true := by
  constructor
  · show (Nat.repr (nowMs / 1000)).length = 10
    exact repr_length_of_range h1 h2
  · show ∀ c ∈ (Nat.repr (nowMs / 1000)).data, c.isDigit = true
    exact repr_isDigit _

/-- C9 witness: the bound evaluated at the sample clock reading. -/
theorem generateTimestamp_ten_digits_witness :
    (generateTimestamp sampleNowMs).length = 10 :=
  (generateTimestamp_ten_digits sampleNowMs (by decide) (by decide)).1

/-- C10: when the caller's payload already carries an `hs_request_timestamp`
field, the object `encryptRequest` serializes (`timestampedPayload`) holds the
freshly generated timestamp under that key — the injected value wins — while
every other field and the key order are exactly those of the caller's object
(which, being merged functionally, is itself untouched). -/
theorem timestampedPayload_overrides_existing (rd : List (String × Json)) (nowMs : Nat)
    (v0 : Json) (hv : getField rd "hs_request_timestamp" = some v0) :
    getField (timestampedPayload rd nowMs) "hs_request_timestamp"
        = some (Json.str (generateTimestamp nowMs)) ∧
      (∀ k, k ≠ "hs_request_timestamp" →
        getField (timestampedPayload rd nowMs) k = getField rd k) ∧
      (timestampedPayload rd nowMs).map Prod.fst = rd.map Prod.fst := by
  have hhas : hasField rd "hs_request_timestamp" = true := hasField_of_getField hv
  exact ⟨getField_setField_self rd _ _,
    fun k hk => getField_setField_ne rd _ k _ hk,
    keys_setField rd _ _ hhas⟩

/-- C3: for any payload and secret accepted by `encryptRequest`, applying the
AES-128-CTR transform with the normalized secret and the counter recorded in the
stored context to the base64-decoded `et_payload` recovers exactly the UTF-8
bytes of the serialized timestamped JSON — the request path applies no
compression. -/
theorem et_payload_symmetric_roundtrip (E : List Nat → List Nat → List Nat)
    (rsaEncrypt : String → List Nat → Option (List Nat)) (pem : String)
    (state0 : Option EncryptionMetadata) (nowMs : Nat) (rand : List Nat)
    (rd : List (String × Json)) (secret : String) (p : EncryptedPayload)
    (md : EncryptionMetadata)
    (hE : ∀ key ctr b, b ∈ E key ctr → b < 256)
    (hok : (encryptRequest E rsaEncrypt pem state0 nowMs rand rd secret).result = .ok p)
    (hmd : (encryptRequest E rsaEncrypt pem state0 nowMs rand rd
      secret).lastEncryptionMetadata = some md) :
    ctrCrypt E (normalizeAESKey secret) md.counter (base64Decode p.et_payload) =
      utf8Encode (stringify (Json.obj (timestampedPayload rd nowMs))) := by
  obtain ⟨hkey, hrand, hpem, w, hw⟩ :=
    encryptRequest_ok_inv E rsaEncrypt pem state0 nowMs rand rd secret p hok
  rw [encryptRequest_ok_eq E rsaEncrypt pem state0 nowMs rand rd secret w hkey hrand
    hpem hw] at hok hmd
  have hp : (⟨base64Encode w, base64Encode (ctrCrypt E (normalizeAESKey secret)
      (rand.take 16) (utf8Encode (stringify (Json.obj (timestampedPayload rd nowMs)))))⟩ :
        EncryptedPayload) = p := Except.ok.inj hok
  have hm : (⟨rand.take 16, secret, generateTimestamp nowMs⟩ : EncryptionMetadata) = md :=
    Option.some.inj hmd
  subst hp
  subst hm
  show ctrCrypt E (normalizeAESKey secret) (rand.take 16)
      (base64Decode (base64Encode (ctrCrypt E (normalizeAESKey secret) (rand.take 16)
        (utf8Encode (stringify (Json.obj (timestampedPayload rd nowMs))))))) =
    utf8Encode (stringify (Json.obj (timestampedPayload rd nowMs)))
  rw [base64_roundtrip _ (ctrCrypt_lt hE (fun b hb => utf8Encode_lt hb))]
  exact ctrCrypt_ctrCrypt E (normalizeAESKey secret) (rand.take 16) _

/-- C3 witness: the symmetric round trip evaluated on the design document's
sample secret and payload, with the stand-in primitives. -/
theorem et_payload_symmetric_roundtrip_witness :
    ctrCrypt zeroBlockCipher (normalizeAESKey "abcdef")
        (((encryptRequest zeroBlockCipher rsaEcho "pem" none sampleNowMs sampleRand
          samplePayload "abcdef").lastEncryptionMetadata).getD ⟨[], "", ""⟩).counter
        (base64Decode ((Except.toOption (encryptRequest zeroBlockCipher rsaEcho "pem" none
          sampleNowMs sampleRand samplePayload "abcdef").result).getD
            ⟨"", ""⟩).et_payload) =
      utf8Encode (stringify (Json.obj (timestampedPayload samplePayload sampleNowMs))) :=
  et_payload_symmetric_roundtrip zeroBlockCipher rsaEcho "pem" none sampleNowMs sampleRand
    samplePayload "abcdef" _ _ zeroBlockCipher_lt rfl rfl

/-- C6: for every payload and secret accepted by `encryptRequest`, the
base64-decoded `et_payload` has exactly the byte length of the UTF-8 serialized
timestamped JSON — counter mode adds no padding expansion. -/
theorem et_payload_length_eq (E : List Nat → List Nat → List Nat)
    (rsaEncrypt : String → List Nat → Option (List Nat)) (pem : String)
    (state0 : Option EncryptionMetadata) (nowMs : Nat) (rand : List Nat)
    (rd : List (String × Json)) (secret : String) (p : EncryptedPayload)
    (hE : ∀ key ctr b, b ∈ E key ctr → b < 256)
    (hok : (encryptRequest E rsaEncrypt pem state0 nowMs rand rd secret).result = .ok p) :
    (base64Decode p.et_payload).length =
      (utf8Encode (stringify (Json.obj (timestampedPayload rd nowMs)))).length := by
  obtain ⟨hkey, hrand, hpem, w, hw⟩ :=
    encryptRequest_ok_inv E rsaEncrypt pem state0 nowMs rand rd secret p hok
  rw [encryptRequest_ok_eq E rsaEncrypt pem state0 nowMs rand rd secret w hkey hrand
    hpem hw] at hok
  have hp : (⟨base64Encode w, base64Encode (ctrCrypt E (normalizeAESKey secret)
      (rand.take 16) (utf8Encode (stringify (Json.obj (timestampedPayload rd nowMs)))))⟩ :
        EncryptedPayload) = p := Except.ok.inj hok
  subst hp
  show (base64Decode (base64Encode (ctrCrypt E (normalizeAESKey secret) (rand.take 16)
      (utf8Encode (stringify (Json.obj (timestampedPayload rd nowMs))))))).length =
    (utf8Encode (stringify (Json.obj (timestampedPayload rd nowMs)))).length
  rw [base64_roundtrip _ (ctrCrypt_lt hE (fun b hb => utf8Encode_lt hb))]
  exact ctrCrypt_length ..

/-- C6 witness: the length identity evaluated on the design document's sample
inputs. -/
theorem et_payload_length_eq_witness :
    (base64Decode ((Except.toOption (encryptRequest zeroBlockCipher rsaEcho "key" none
        sampleNowMs sampleRand samplePayload "abcdef").result).getD
          ⟨"", ""⟩).et_payload).length =
      (utf8Encode (stringify (Json.obj (timestampedPayload samplePayload
        sampleNowMs)))).length :=
  et_payload_length_eq zeroBlockCipher rsaEcho "key" none sampleNowMs sampleRand
    samplePayload "abcdef" _ zeroBlockCipher_lt rfl

/-- C7: every successful `encryptRequest` unconditionally replaces the stored
context — whatever was there before — with exactly the 16 random counter bytes
that keyed the CTR encryption and were RSA-wrapped into `ctr`, the caller's
original un-normalized secret, and the timestamp embedded in the payload. -/
theorem encryptRequest_replaces_context (E : List Nat → List Nat → List Nat)
    (rsaEncrypt : String → List Nat → Option (List Nat)) (pem : String)
    (state0 : Option EncryptionMetadata) (nowMs : Nat) (rand : List Nat)
    (rd : List (String × Json)) (secret : String) (p : EncryptedPayload)
    (hok : (encryptRequest E rsaEncrypt pem state0 nowMs rand rd secret).result = .ok p) :
    (encryptRequest E rsaEncrypt pem state0 nowMs rand rd secret).lastEncryptionMetadata
        = some ⟨rand.take 16, secret, generateTimestamp nowMs⟩ ∧
      p.et_payload = base64Encode (ctrCrypt E (normalizeAESKey secret) (rand.take 16)
        (utf8Encode (stringify (Json.obj (timestampedPayload rd nowMs))))) ∧
      ∃ w, rsaEncrypt pem (rand.take 16) = some w ∧ p.ctr = base64Encode w := by
  obtain ⟨hkey, hrand, hpem, w, hw⟩ :=
    encryptRequest_ok_inv E rsaEncrypt pem state0 nowMs rand rd secret p hok
  rw [encryptRequest_ok_eq E rsaEncrypt pem state0 nowMs rand rd secret w hkey hrand
    hpem hw] at hok ⊢
  have hp : (⟨base64Encode w, base64Encode (ctrCrypt E (normalizeAESKey secret)
      (rand.take 16) (utf8Encode (stringify (Json.obj (timestampedPayload rd nowMs)))))⟩ :
        EncryptedPayload) = p := Except.ok.inj hok
  subst hp
  exact ⟨rfl, rfl, w, hw, rfl⟩

/-- C7 witness: the context replacement evaluated with a different prior context
in the slot. -/
theorem encryptRequest_replaces_context_witness :
    (encryptRequest zeroBlockCipher rsaEcho "pem" (some sampleMetadata) sampleNowMs
        sampleRand [] "secret9876543").lastEncryptionMetadata
        = some ⟨sampleRand.take 16, "secret9876543", generateTimestamp sampleNowMs⟩ ∧
      ((Except.toOption (encryptRequest zeroBlockCipher rsaEcho "pem"
          (some sampleMetadata) sampleNowMs sampleRand [] "secret9876543").result).getD
            ⟨"", ""⟩).et_payload
        = base64Encode (ctrCrypt zeroBlockCipher (normalizeAESKey "secret9876543")
            (sampleRand.take 16)
            (utf8Encode (stringify (Json.obj (timestampedPayload [] sampleNowMs))))) ∧
      ∃ w, rsaEcho "pem" (sampleRand.take 16) = some w ∧
        ((Except.toOption (encryptRequest zeroBlockCipher rsaEcho "pem"
          (some sampleMetadata) sampleNowMs sampleRand [] "secret9876543").result).getD
            ⟨"", ""⟩).ctr = base64Encode w :=
  encryptRequest_replaces_context zeroBlockCipher rsaEcho "pem" (some sampleMetadata)
    sampleNowMs sampleRand [] "secret9876543" _ rfl

/-- C4: when the stored context passes the cipher's structural checks and the
AES-CTR decryption of the ciphertext yields bytes that gzip rejects — or bytes
whose decompressed text the JSON parser rejects — `decryptResponse` fails with
`CorruptResponse`, a constructor distinct from the `CryptoError` used for
cipher-level faults. -/
theorem decryptResponse_corrupt_data (E : List Nat → List Nat → List Nat)
    (gunzipFn : List Nat → Option (List Nat)) (bytesToStringFn : List Nat → String)
    (parseJsonFn : String → Option Json) (md : EncryptionMetadata) (input : String)
    (hkey : (normalizeAESKey md.aesKey).length = 16) (hctr : md.counter.length = 16) :
    (gunzipFn (ctrCrypt E (normalizeAESKey md.aesKey) md.counter (base64Decode input))
        = none →
      decryptResponse E gunzipFn bytesToStringFn parseJsonFn (some md) input
        = (.error .corruptResponse, some md)) ∧
    (∀ bs, gunzipFn (ctrCrypt E (normalizeAESKey md.aesKey) md.counter
        (base64Decode input)) = some bs →
      parseJsonFn (bytesToStringFn bs) = none →
      decryptResponse E gunzipFn bytesToStringFn parseJsonFn (some md) input
        = (.error .corruptResponse, some md)) ∧
    Err.corruptResponse ≠ Err.cryptoError := by
  refine ⟨?_, ?_, by decide⟩
  · intro hgz
    simp [decryptResponse, decryptResponseAES, decompressData, hkey, hctr, hgz]
  · intro bs hgz hpj
    simp [decryptResponse, decryptResponseAES, decompressData, hkey, hctr, hgz, hpj]

/-- C4 witness: a context that decrypts to non-gzip bytes is reported as
`CorruptResponse`. -/
theorem decryptResponse_corrupt_data_witness :
    decryptResponse zeroBlockCipher gunzipReject bytesToStringEmpty parseJsonReject
        (some sampleMetadata) "AAAA" = (.error .corruptResponse, some sampleMetadata) :=
  (decryptResponse_corrupt_data zeroBlockCipher gunzipReject bytesToStringEmpty
    parseJsonReject sampleMetadata "AAAA" (by decide) (by decide)).1 rfl

/-- C10 witness: the override evaluated on a payload that already carries the
timestamp field. -/
theorem timestampedPayload_overrides_existing_witness :
    getField (timestampedPayload
        [("hs_request_timestamp", Json.str "old"), ("a", Json.null)] sampleNowMs)
      "hs_request_timestamp" = some (Json.str (generateTimestamp sampleNowMs)) :=
  (timestampedPayload_overrides_existing
    [("hs_request_timestamp", Json.str "old"), ("a", Json.null)] sampleNowMs
    (Json.str "old") rfl).1

end Sigmatic
